import Mathlib

/-!
Shallow embedding of the gitignore-style path-pattern matcher of
directory-mapper (the Go types `Pattern` / `PatternList` and the functions
`NewPatternList`, `AddPattern`, `splitPattern`, `Matches`, `matches`,
`matchSegments`, `matchWildcard`).

Strings are modelled as lists of characters; the Go code indexes bytes, which
coincides with characters on the ASCII pattern text at issue.  The target
platform is Linux, where `filepath.Separator` is the slash, so
`filepath.ToSlash` is the identity and `filepath.IsAbs` tests for a leading
slash.  Filesystem effects (`filepath.Rel`, `os.Stat`, reading the rule file)
are passed in as `Option` / `Except` arguments holding the effect's outcome.
-/

namespace DirMapper

/-- Character list of a string literal, the representation of Go strings here. -/
def chars (s : String) : List Char := s.data

/-- Embeds strings.HasPrefix s pre. -/
def goHasPrefix : List Char → List Char → Bool
  | _, [] => true
  | [], _ :: _ => false
  | c :: cs, p :: ps => c == p && goHasPrefix cs ps

/-- Embeds strings.HasSuffix s suf. -/
def goHasSuffix (s suf : List Char) : Bool :=
  goHasPrefix s.reverse suf.reverse

/-- Embeds strings.Contains s sub (substring containment). -/
def goContains : List Char → List Char → Bool
  | [], sub => goHasPrefix [] sub
  | c :: cs, sub => goHasPrefix (c :: cs) sub || goContains cs sub

/-- Embeds strings.Split s sep for a one-character separator. -/
def splitOnChar (sep : Char) : List Char → List (List Char)
  | [] => [[]]
  | c :: cs =>
    match splitOnChar sep cs with
    | [] => [[]]
    | s :: ss => if c == sep then [] :: s :: ss else (c :: s) :: ss

/-- Embeds strings.Join segs sep for the slash separator. -/
def joinSlash : List (List Char) → List Char
  | [] => []
  | [s] => s
  | s :: s2 :: rest => s ++ '/' :: joinSlash (s2 :: rest)

/-- The Latin-1 range of Go's unicode.IsSpace (space, tab, newline, vertical
tab, form feed, carriage return, next line, no-break space); space classes
beyond Latin-1 do not occur in the inputs considered. -/
def isSpaceGo (c : Char) : Bool :=
  c == ' ' || c == '\t' || c == '\n' || c == '\x0b' || c == '\x0c' ||
    c == '\r' || c == '\x85' || c == '\xa0'

/-- Embeds strings.TrimSpace. -/
def trimSpace (s : List Char) : List Char :=
  ((s.dropWhile isSpaceGo).reverse.dropWhile isSpaceGo).reverse

/-- Embeds strings.ReplaceAll pattern "**" "\x00": non-overlapping,
left-to-right replacement of each double asterisk by the NUL byte. -/
def replaceDoubleStar : List Char → List Char
  | '*' :: '*' :: rest => '\x00' :: replaceDoubleStar rest
  | c :: rest => c :: replaceDoubleStar rest
  | [] => []

/-- Embeds strings.ReplaceAll seg "\x00" "**", restoring double asterisks. -/
def restoreDoubleStar : List Char → List Char
  | '\x00' :: rest => '*' :: '*' :: restoreDoubleStar rest
  | c :: rest => c :: restoreDoubleStar rest
  | [] => []

/-- filepath.ToSlash: the identity on Linux, whose separator is the slash. -/
def toSlash (path : List Char) : List Char := path

/-- filepath.IsAbs on Linux: the path begins with a slash. -/
def isAbs (path : List Char) : Bool := goHasPrefix path (chars "/")

/-- Segment elimination of Go's path.Clean: empty and dot elements are
dropped; a dot-dot element pops the last retained element, stays as dot-dot
after a retained dot-dot, is dropped at the top of a rooted path, and is
retained at the top of an unrooted path.  `acc` holds the output segments in
reverse. -/
def cleanSegs (rooted : Bool) : List (List Char) → List (List Char) → List (List Char)
  | acc, [] => acc.reverse
  | acc, s :: rest =>
    if s.isEmpty || s == chars "." then cleanSegs rooted acc rest
    else if s == chars ".." then
      match acc with
      | [] =>
        if rooted then cleanSegs rooted [] rest
        else cleanSegs rooted [chars ".."] rest
      | a :: as =>
        if a == chars ".." then cleanSegs rooted (chars ".." :: a :: as) rest
        else cleanSegs rooted as rest
    else cleanSegs rooted (s :: acc) rest

/-- Embeds filepath.Clean on Linux (equivalently path.Clean): lexical
normalization dropping dot elements, resolving dot-dot elements and collapsing
repeated separators; the empty result becomes a single dot. -/
def filepathClean (path : List Char) : List Char :=
  if path.isEmpty then chars "."
  else
    let rooted := goHasPrefix path (chars "/")
    let out := joinSlash (cleanSegs rooted [] (splitOnChar '/' path))
    if rooted then '/' :: out
    else if out.isEmpty then chars "." else out

/-- Go struct Pattern: one compiled rule line. -/
structure Pattern where
  original : List Char
  segments : List (List Char)
  isNegation : Bool
  isExact : Bool
  isDir : Bool

/-- Go struct PatternList: the ordered compiled rules plus the base path. -/
structure PatternList where
  patterns : List Pattern
  basePath : List Char

/-- Embeds splitPattern: double asterisks are protected as NUL, the pattern is
split on slashes, and each segment has its double asterisks restored. -/
def splitPattern (pattern : List Char) : List (List Char) :=
  (splitOnChar '/' (toSlash (replaceDoubleStar pattern))).map restoreDoubleStar

/-- The rule construction inside AddPattern: record the negation prefix and
directory suffix, strip them, clean the remaining text, split it into
segments, and compute the exact flag as written in the source,
not Contains pattern star or Contains pattern qmark. -/
def addPatternCore (pl : PatternList) (pattern : List Char) : PatternList :=
  let isNegation := goHasPrefix pattern (chars "!")
  let isDir := goHasSuffix pattern (chars "/")
  let original := pattern
  let pattern := if isNegation then pattern.drop 1 else pattern
  let pattern := if isDir then pattern.dropLast else pattern
  let pattern := filepathClean pattern
  let segments := splitPattern pattern
  let isExact := !(goContains pattern (chars "*")) || goContains pattern (chars "?")
  ⟨pl.patterns ++ [⟨original, segments, isNegation, isExact, isDir⟩], pl.basePath⟩

/-- Embeds PatternList.AddPattern.  The Go method's only error return is nil,
so the result is always ok; the rule construction is addPatternCore. -/
def PatternList.AddPattern (pl : PatternList) (pattern : List Char) :
    Except (List Char) PatternList :=
  .ok (addPatternCore pl pattern)

/-- The scanner loop of NewPatternList: trim each line, skip blank lines and
comment lines, add every other line as a pattern, stopping at the first
error. -/
def processLines (pl : PatternList) : List (List Char) → Except (List Char) PatternList
  | [] => .ok pl
  | line :: rest =>
    let pattern := trimSpace line
    if pattern.isEmpty || goHasPrefix pattern (chars "#") then processLines pl rest
    else
      match pl.AddPattern pattern with
      | .error e => .error e
      | .ok pl2 => processLines pl2 rest

/-- Embeds NewPatternList with the file I/O abstracted: `readResult` is the
outcome of opening and reading the rule file, error on an I/O failure and
otherwise the file's lines (the create-if-absent branch yields ok of the empty
line list). -/
def NewPatternList (basePath : List Char)
    (readResult : Except (List Char) (List (List Char))) :
    Except (List Char) PatternList :=
  match readResult with
  | .error e => .error e
  | .ok lines => processLines ⟨[], basePath⟩ lines

/-- The rules NewPatternList compiles from the given lines (with base path a
dot); compilation never fails on pattern text, so the error branch is
unreachable. -/
def compiled (lines : List String) : List Pattern :=
  match NewPatternList (chars ".") (.ok (lines.map chars)) with
  | .ok pl => pl.patterns
  | .error _ => []

/-- The anchored regular-expression string matchWildcard builds from the
pattern: star becomes dot-star, the question mark becomes dot, regex
metacharacters are backslash-escaped, others are copied. -/
def wildcardRegexCore : List Char → List Char
  | [] => []
  | c :: rest =>
    if c == '*' then '.' :: '*' :: wildcardRegexCore rest
    else if c == '?' then '.' :: wildcardRegexCore rest
    else if (chars "[]()\x7b\x7d+^$|\\.").contains c then '\\' :: c :: wildcardRegexCore rest
    else c :: wildcardRegexCore rest

/-- The full anchored regex string built inside matchWildcard. -/
def wildcardRegex (pattern : List Char) : List Char :=
  '^' :: wildcardRegexCore pattern ++ chars "$"

/-- Embeds matchWildcard.  The Go function first builds the anchored regex
string (wildcardRegex); that string is dead: no regexp package is imported and
the string is never applied to the path.  Matching proceeds by the special
cases: a lone star matches anything; a star at both ends tests substring
containment of the middle; a star at one end tests suffix or prefix
containment; everything else, including patterns with a question mark or an
interior star, falls through to literal equality. -/
def matchWildcard (pattern path : List Char) : Bool :=
  let _regex := wildcardRegex pattern
  if pattern == chars "*" then true
  else if goHasPrefix pattern (chars "*") && goHasSuffix pattern (chars "*") then
    goContains path (pattern.drop 1).dropLast
  else if goHasPrefix pattern (chars "*") then goHasSuffix path (pattern.drop 1)
  else if goHasSuffix pattern (chars "*") then goHasPrefix path pattern.dropLast
  else pattern == path

/-- Embeds Pattern.matchSegments (the receiver is unused in the source).
Empty pattern requires empty path; an exhausted path requires every remaining
pattern segment to be the double asterisk; a double-asterisk segment matches
by dropping itself or consuming one path segment; any other segment must
wildcard-match the head path segment. -/
def matchSegments : List (List Char) → List (List Char) → Bool
  | [], pathSegs => pathSegs.isEmpty
  | patSeg :: patRest, [] => (patSeg :: patRest).all fun seg => seg == chars "**"
  | patSeg :: patRest, pathSeg :: pathRest =>
    if patSeg == chars "**" then
      matchSegments patRest (pathSeg :: pathRest) ||
        matchSegments (patSeg :: patRest) pathRest
    else if matchWildcard patSeg pathSeg then matchSegments patRest pathRest
    else false
termination_by pats paths => pats.length + paths.length
decreasing_by all_goals simp +arith

/-- Fuel-counting variant of matchSegments, returning none when the fuel is
exhausted before an answer is reached; used to state that the recursion depth
is bounded by the sum of the two list lengths. -/
def matchSegmentsFuel : Nat → List (List Char) → List (List Char) → Option Bool
  | 0, _, _ => none
  | _ + 1, [], pathSegs => some pathSegs.isEmpty
  | _ + 1, patSeg :: patRest, [] => some ((patSeg :: patRest).all fun seg => seg == chars "**")
  | fuel + 1, patSeg :: patRest, pathSeg :: pathRest =>
    if patSeg == chars "**" then
      match matchSegmentsFuel fuel patRest (pathSeg :: pathRest),
          matchSegmentsFuel fuel (patSeg :: patRest) pathRest with
      | some a, some b => some (a || b)
      | _, _ => none
    else if matchWildcard patSeg pathSeg then matchSegmentsFuel fuel patRest pathRest
    else some false

/-- Embeds Pattern.matches: directory-only rules never match non-directories;
exact rules compare the joined segments with the whole path; other rules run
the segment matcher on the path split at slashes. -/
def Pattern.matches (p : Pattern) (path : List Char) (isDir : Bool) : Bool :=
  if p.isDir && !isDir then false
  else
    let pathSegments := splitOnChar '/' path
    if p.isExact then joinSlash p.segments == path
    else matchSegments p.segments pathSegments

/-- The verdict loop of PatternList.Matches: fold over the rules in file
order, overwriting the verdict with the negation of the rule's negated flag on
every rule that matches. -/
def verdictLoop (patterns : List Pattern) (relPath : List Char) (isDir : Bool) : Bool :=
  patterns.foldl (fun result p => if p.matches relPath isDir then !p.isNegation else result) false

/-- Embeds PatternList.Matches.  The two filesystem effects are arguments:
`relResult` is the outcome of filepath.Rel basePath path, consulted only when
the path is absolute (none means the conversion failed); `statResult` is the
outcome of os.Stat path (none means stat failed, otherwise the directory
flag).  An empty rule list, a failed conversion and a failed stat all yield
false; otherwise the cleaned slash-form relative path is run through the
verdict loop. -/
def PatternList.Matches (pl : PatternList) (path : List Char)
    (relResult : Option (List Char)) (statResult : Option Bool) : Bool :=
  if pl.patterns.isEmpty then false
  else
    match (if isAbs path then relResult else some path) with
    | none => false
    | some relPath0 =>
      let relPath := toSlash (filepathClean relPath0)
      match statResult with
      | none => false
      | some isDir => verdictLoop pl.patterns relPath isDir

/-- Follows the spec's words for single-segment wildcard matching: anchored
matching of the path segment against the pattern segment in which a star
matches any run of characters including the empty run (it may continue at any
suffix of the segment), a question mark matches exactly one character, and
every other character matches itself literally and case-sensitively. -/
def globMatchSpec : List Char → List Char → Bool
  | [], s => s.isEmpty
  | '*' :: ps, s => s.tails.any fun t => globMatchSpec ps t
  | '?' :: ps, s =>
    match s with
    | [] => false
    | _ :: cs => globMatchSpec ps cs
  | c :: ps, s =>
    match s with
    | [] => false
    | d :: cs => c == d && globMatchSpec ps cs

/-- Executable mirror of Pattern.matches in which the segment matcher runs on
fuel one above the sum of the list lengths; used to evaluate the well-founded
recursion of matchSegments inside closed proofs. -/
def Pattern.matchesF (p : Pattern) (path : List Char) (isDir : Bool) : Bool :=
  if p.isDir && !isDir then false
  else
    let pathSegments := splitOnChar '/' path
    if p.isExact then joinSlash p.segments == path
    else (matchSegmentsFuel (p.segments.length + pathSegments.length + 1)
      p.segments pathSegments).getD false

/-- Executable mirror of verdictLoop built on Pattern.matchesF. -/
def verdictLoopF (patterns : List Pattern) (relPath : List Char) (isDir : Bool) : Bool :=
  patterns.foldl (fun result p => if p.matchesF relPath isDir then !p.isNegation else result) false

/-- Executable mirror of PatternList.Matches built on verdictLoopF. -/
def MatchesF (pl : PatternList) (path : List Char)
    (relResult : Option (List Char)) (statResult : Option Bool) : Bool :=
  if pl.patterns.isEmpty then false
  else
    match (if isAbs path then relResult else some path) with
    | none => false
    | some relPath0 =>
      let relPath := toSlash (filepathClean relPath0)
      match statResult with
      | none => false
      | some isDir => verdictLoopF pl.patterns relPath isDir

/-!
Bridging lemmas between the well-founded segment matcher and its fuel
mirror, shared by the claim theorems below.  They make the matcher evaluable
by kernel reduction in closed statements.
-/

theorem matchSegmentsFuel_sound :
    ∀ (fuel : Nat) (pats paths : List (List Char)),
      pats.length + paths.length < fuel →
      matchSegmentsFuel fuel pats paths = some (matchSegments pats paths) := by
  intro fuel
  induction fuel with
  | zero => intro pats paths h; omega
  | succ n ih =>
    intro pats paths h
    match pats, paths with
    | [], paths => simp [matchSegmentsFuel, matchSegments]
    | p :: pr, [] => simp [matchSegmentsFuel, matchSegments]
    | p :: pr, s :: ss =>
      simp only [List.length_cons] at h
      simp only [matchSegmentsFuel, matchSegments]
      by_cases hstar : (p == chars "**") = true
      · rw [if_pos hstar, if_pos hstar,
          ih pr (s :: ss) (by simp only [List.length_cons]; omega),
          ih (p :: pr) ss (by simp only [List.length_cons]; omega)]
      · rw [if_neg hstar, if_neg hstar]
        by_cases hw : matchWildcard p s = true
        · rw [if_pos hw, if_pos hw, ih pr ss (by omega)]
        · rw [if_neg hw, if_neg hw]

theorem Pattern.matches_eq_matchesF (p : Pattern) (path : List Char) (isDir : Bool) :
    p.matches path isDir = p.matchesF path isDir := by
  simp only [Pattern.matches, Pattern.matchesF,
    matchSegmentsFuel_sound (p.segments.length + (splitOnChar '/' path).length + 1)
      p.segments (splitOnChar '/' path) (by omega), Option.getD_some]

theorem verdictLoop_eq_F (ps : List Pattern) (relPath : List Char) (isDir : Bool) :
    verdictLoop ps relPath isDir = verdictLoopF ps relPath isDir := by
  simp only [verdictLoop, verdictLoopF, Pattern.matches_eq_matchesF]

theorem Matches_eq_F (pl : PatternList) (path : List Char)
    (relResult : Option (List Char)) (statResult : Option Bool) :
    pl.Matches path relResult statResult = MatchesF pl path relResult statResult := by
  simp only [PatternList.Matches, MatchesF, verdictLoop_eq_F]

theorem matchSegments_eq_getD (pats paths : List (List Char)) :
    matchSegments pats paths =
      (matchSegmentsFuel (pats.length + paths.length + 1) pats paths).getD false := by
  rw [matchSegmentsFuel_sound _ pats paths (by omega)]; rfl

theorem goHasPrefix_nil (s : List Char) : goHasPrefix s [] = true := by
  cases s <;> rfl

theorem verdictLoop_eq_getLast (relPath : List Char) (isDir : Bool) :
    ∀ ps : List Pattern,
      verdictLoop ps relPath isDir =
        ((ps.filter fun p => p.matches relPath isDir).getLast?.elim false
          (fun p => !p.isNegation)) := by
  intro ps
  induction ps using List.reverseRecOn with
  | nil => rfl
  | append_singleton l a ih =>
    by_cases h : a.matches relPath isDir = true
    · simp [verdictLoop, List.foldl_append, List.filter_append, h, List.getLast?_concat]
    · simp only [verdictLoop, List.foldl_append, List.filter_append] at ih ⊢
      simp [h, ih]

theorem processLines_ok :
    ∀ (lines : List (List Char)) (pl : PatternList),
      ∃ pl2, processLines pl lines = .ok pl2 := by
  intro lines
  induction lines with
  | nil => intro pl; exact ⟨pl, rfl⟩
  | cons line rest ih =>
    intro pl
    simp only [processLines]
    by_cases h : ((trimSpace line).isEmpty || goHasPrefix (trimSpace line) (chars "#")) = true
    · rw [if_pos h]; exact ih pl
    · rw [if_neg h]
      exact ih (addPatternCore pl (trimSpace line))

/-- C1: PatternList.Matches evaluates every rule in file order without
short-circuiting, overwriting the running verdict with the negation of the
negated flag of each rule that matches, so the final verdict is the negation
of the negated flag of the last matching rule and false when no rule matches;
for the compiled rule list of the lines "*.log" and "!keep.log", the path
keep.log is not excluded and the path debug.log is excluded. -/
theorem c1_last_match_wins :
    (∀ (ps : List Pattern) (relPath : List Char) (isDir : Bool),
        verdictLoop ps relPath isDir =
          ((ps.filter fun p => p.matches relPath isDir).getLast?.elim false
            (fun p => !p.isNegation)))
    ∧ PatternList.Matches ⟨compiled ["*.log", "!keep.log"], chars "."⟩
        (chars "keep.log") none (some false) = false
    ∧ PatternList.Matches ⟨compiled ["*.log", "!keep.log"], chars "."⟩
        (chars "debug.log") none (some false) = true := by
  refine ⟨fun ps rp d => verdictLoop_eq_getLast rp d ps, ?_, ?_⟩
  · rw [Matches_eq_F]; decide
  · rw [Matches_eq_F]; decide

/-- C2 fails on the code: matchWildcard is not equivalent to anchored glob
matching.  A question mark is not treated as a single-character wildcard and
an interior star is not treated as a wildcard at all; both cases fall through
to literal comparison, so pattern a?c rejects segment abc and pattern a*b
rejects segment aXb although the claimed glob semantics (globMatchSpec)
accepts both.  The claim's own star examples do hold: pattern *.go matches
main.go and does not match the two segments of src/main.go. -/
theorem c2_wildcard_not_glob :
    matchWildcard (chars "a?c") (chars "abc") = false
    ∧ globMatchSpec (chars "a?c") (chars "abc") = true
    ∧ matchWildcard (chars "a*b") (chars "aXb") = false
    ∧ globMatchSpec (chars "a*b") (chars "aXb") = true
    ∧ matchWildcard (chars "*.go") (chars "main.go") = true
    ∧ matchSegments [chars "*.go"] (splitOnChar '/' (chars "src/main.go")) = false := by
  refine ⟨by decide, by decide, by decide, by decide, by decide, ?_⟩
  rw [matchSegments_eq_getD]; decide

/-- C3 fails on the code: AddPattern computes the exact flag as
(no star present) or (question mark present), not as the claimed
(no star present) and (no question mark present); the pattern a?b contains a
question mark and no star, yet compiles with the exact flag set, so it is
compared literally instead of being wildcard-matched. -/
theorem c3_exact_flag_inverted :
    PatternList.AddPattern ⟨[], chars "."⟩ (chars "a?b") =
      .ok ⟨[⟨chars "a?b", [chars "a?b"], false, true, false⟩], chars "."⟩
    ∧ goContains (chars "a?b") (chars "*") = false
    ∧ goContains (chars "a?b") (chars "?") = true :=
  ⟨rfl, rfl, rfl⟩

/-- C4: a double-asterisk pattern segment matches zero or more whole path
segments: with a nonempty path the match succeeds iff dropping the double
asterisk matches the full remaining path or keeping it matches the path
without its first segment; with an exhausted path the remaining pattern
succeeds iff every remaining segment is the double asterisk; the rule
compiled from line **/test.txt matches test.txt, a/test.txt and
a/b/test.txt, while the rule compiled from line a/test.txt matches exactly
the path a/test.txt. -/
theorem c4_double_star :
    (∀ (patRest : List (List Char)) (s : List Char) (ss : List (List Char)),
        matchSegments (chars "**" :: patRest) (s :: ss) =
          (matchSegments patRest (s :: ss) || matchSegments (chars "**" :: patRest) ss))
    ∧ (∀ pats : List (List Char),
        matchSegments pats [] = pats.all fun seg => seg == chars "**")
    ∧ verdictLoop (compiled ["**/test.txt"]) (chars "test.txt") false = true
    ∧ verdictLoop (compiled ["**/test.txt"]) (chars "a/test.txt") false = true
    ∧ verdictLoop (compiled ["**/test.txt"]) (chars "a/b/test.txt") false = true
    ∧ (∀ (path : List Char) (d : Bool),
        verdictLoop (compiled ["a/test.txt"]) path d = (chars "a/test.txt" == path)) := by
  refine ⟨?_, ?_, ?_, ?_, ?_, ?_⟩
  · intro patRest s ss; simp [matchSegments]
  · intro pats
    cases pats with
    | nil => simp [matchSegments]
    | cons p pr => simp [matchSegments]
  · rw [verdictLoop_eq_F]; decide
  · rw [verdictLoop_eq_F]; decide
  · rw [verdictLoop_eq_F]; decide
  · intro path d
    have hc : verdictLoopF (compiled ["a/test.txt"]) path d =
        (if (chars "a/test.txt" == path) then true else false) := rfl
    rw [verdictLoop_eq_F, hc]
    cases h : chars "a/test.txt" == path <;> simp [h]

/-- C5: a rule whose source line ends in a slash is compiled with the
directory flag set, and a rule with the directory flag set never matches a
candidate whose directory flag is false, whatever the path text; the rule of
line build/ excludes the directory build and does not exclude a file named
build. -/
theorem c5_dir_only :
    (∀ (pl : PatternList) (line : List Char),
        goHasSuffix line (chars "/") = true →
        ∃ p : Pattern, (addPatternCore pl line).patterns = pl.patterns ++ [p]
          ∧ p.isDir = true)
    ∧ (∀ (p : Pattern) (path : List Char), p.isDir = true →
        p.matches path false = false)
    ∧ verdictLoop (compiled ["build/"]) (chars "build") true = true
    ∧ verdictLoop (compiled ["build/"]) (chars "build") false = false := by
  refine ⟨?_, ?_, ?_, ?_⟩
  · intro pl line h
    exact ⟨_, rfl, h⟩
  · intro p path h
    simp [Pattern.matches, h]
  · rw [verdictLoop_eq_F]; decide
  · rw [verdictLoop_eq_F]; decide

theorem c5_dir_only_witness :
    (∃ p : Pattern, (addPatternCore ⟨[], chars "."⟩ (chars "build/")).patterns =
        (⟨[], chars "."⟩ : PatternList).patterns ++ [p] ∧ p.isDir = true)
    ∧ Pattern.matches ⟨chars "build/", [chars "build"], false, true, true⟩
        (chars "x") false = false :=
  ⟨c5_dir_only.1 ⟨[], chars "."⟩ (chars "build/") (by decide),
   c5_dir_only.2.1 ⟨chars "build/", [chars "build"], false, true, true⟩ (chars "x") rfl⟩

/-- C6: PatternList.Matches is a total boolean function that fails open: when
the candidate path is absolute and its conversion to a path relative to the
base directory fails, or when stat on the candidate path fails, the verdict
is false (not excluded) instead of an error. -/
theorem c6_fail_open :
    (∀ (pl : PatternList) (path : List Char) (statResult : Option Bool),
        isAbs path = true → pl.Matches path none statResult = false)
    ∧ (∀ (pl : PatternList) (path : List Char) (relResult : Option (List Char)),
        pl.Matches path relResult none = false) := by
  constructor
  · intro pl path statResult h
    simp [PatternList.Matches, h]
  · intro pl path relResult
    simp only [PatternList.Matches]
    cases habs : isAbs path with
    | false => simp [habs]
    | true =>
      cases relResult with
      | none => simp [habs]
      | some r => simp [habs]

theorem c6_fail_open_witness :
    isAbs (chars "/x") = true
    ∧ PatternList.Matches ⟨[⟨chars "a", [chars "a"], false, true, false⟩], chars "."⟩
        (chars "/x") none (some false) = false :=
  ⟨by decide,
   c6_fail_open.1 ⟨[⟨chars "a", [chars "a"], false, true, false⟩], chars "."⟩
     (chars "/x") (some false) (by decide)⟩

/-- C7: for fixed compiled rules, base directory, candidate path, relative
conversion outcome and directory flag, the exclusion verdict is a boolean and
two evaluations with identical inputs are equal: PatternList.Matches is a
pure function of its arguments. -/
theorem c7_deterministic_total :
    ∀ (pl : PatternList) (path : List Char) (relResult : Option (List Char))
      (statResult : Option Bool),
      (pl.Matches path relResult statResult = true ∨
        pl.Matches path relResult statResult = false)
      ∧ pl.Matches path relResult statResult = pl.Matches path relResult statResult := by
  intro pl path r s
  refine ⟨?_, rfl⟩
  cases h : pl.Matches path r s
  · exact Or.inr rfl
  · exact Or.inl rfl

/-- C8: AddPattern succeeds on every pattern string whatever its wildcard
syntax, and NewPatternList errs only when reading the rule source fails:
on any successfully read line list it returns a compiled list, and on a read
failure it propagates exactly that failure. -/
theorem c8_compile_never_fails :
    (∀ (pl : PatternList) (pattern : List Char),
        ∃ pl2, pl.AddPattern pattern = .ok pl2)
    ∧ (∀ (basePath : List Char) (lines : List (List Char)),
        ∃ pl, NewPatternList basePath (.ok lines) = .ok pl)
    ∧ (∀ basePath e : List Char, NewPatternList basePath (.error e) = .error e) := by
  refine ⟨fun pl pattern => ⟨_, rfl⟩, fun basePath lines => ?_, fun basePath e => rfl⟩
  exact processLines_ok lines ⟨[], basePath⟩

/-- C9: for every pattern segment in which no star occurs as the first
character and no star occurs as the last character (which covers every
segment containing a question mark or only an interior star, and excludes the
lone-star segment), matchWildcard accepts the path segment iff it is
character-for-character identical to the pattern segment; the regex string
the function builds plays no part. -/
theorem c9_literal_fallthrough :
    ∀ (pattern path : List Char),
      goHasPrefix pattern (chars "*") = false →
      goHasSuffix pattern (chars "*") = false →
      (matchWildcard pattern path = true ↔ pattern = path) := by
  intro pattern path h1 h2
  have hstar : (pattern == chars "*") = false := by
    cases pattern with
    | nil => rfl
    | cons c cs =>
      simp only [goHasPrefix, goHasPrefix_nil, Bool.and_true] at h1
      show (c == '*' && cs == []) = false
      rw [h1]; rfl
  simp [matchWildcard, hstar, h1, h2]

theorem c9_literal_fallthrough_witness :
    goHasPrefix (chars "a?b") (chars "*") = false
    ∧ goHasSuffix (chars "a?b") (chars "*") = false
    ∧ (matchWildcard (chars "a?b") (chars "abc") = true ↔ chars "a?b" = chars "abc") :=
  ⟨by decide, by decide,
   c9_literal_fallthrough (chars "a?b") (chars "abc") (by decide) (by decide)⟩

/-- C10: matchSegments terminates on all inputs, its backtracking depth
bounded by the sum of the two list lengths: the fuel-counting variant already
completes with fuel one above that sum and agrees with the total function. -/
theorem c10_matchSegments_total :
    ∀ (pats paths : List (List Char)),
      matchSegmentsFuel (pats.length + paths.length + 1) pats paths =
        some (matchSegments pats paths) :=
  fun pats paths => matchSegmentsFuel_sound _ pats paths (by omega)

end DirMapper
